import Mathlib

/-!
Verification of the Klondike solitaire rule engine.

The definitions below are a shallow embedding of the TypeScript engine:
`Card` (entities/Card), `CardStack` (entities/CardStack), the game logic
(`GameLogic`), the game-state bookkeeping (`GameState`) and the dealing
code (`Deck.dealForSolitaire`, controller `dealCards`/`getAllStacks`).
Mutable JS objects are modelled by explicit state passing; the engine's
stack references are modelled by positions (indices) into the list of
all stacks, which is faithful because the JS code identifies the stacks by
object identity.  Rendering, animation, wall-clock timestamps, score and
persistence are outside the model (they never influence the rule paths
embedded here).
-/

namespace Solitaire

/-- Suit of a card, from `CONSTANTS.SUITS`. -/
inductive Suit where
  | hearts | diamonds | clubs | spades
deriving DecidableEq, Repr

/-- Rank of a card, from `CONSTANTS.RANKS` (`'A'..'K'`). -/
inductive Rank where
  | rA | r2 | r3 | r4 | r5 | r6 | r7 | r8 | r9 | r10 | rJ | rQ | rK
deriving DecidableEq, Repr

/-- Numeric value of a rank, from `Card.getValue`. -/
def Rank.getValue : Rank → Nat
  | .rA => 1
  | .r2 => 2
  | .r3 => 3
  | .r4 => 4
  | .r5 => 5
  | .r6 => 6
  | .r7 => 7
  | .r8 => 8
  | .r9 => 9
  | .r10 => 10
  | .rJ => 11
  | .rQ => 12
  | .rK => 13

/-- A card: immutable suit and rank plus its mutable face state
(`Card` in entities/Card; `faceUp` starts `false`). -/
structure Card where
  suit : Suit
  rank : Rank
  faceUp : Bool
deriving DecidableEq, Repr

namespace Card

/-- Numeric value of the card (`Card.getValue`). -/
def getValue (c : Card) : Nat := c.rank.getValue

/-- Red-suit test (`Card.isRed`). -/
def isRed (c : Card) : Bool := c.suit = Suit.hearts || c.suit = Suit.diamonds

/-- Face-state assignment (`Card.flip(faceUp)` with an explicit argument,
the only form the engine uses). -/
def flip (c : Card) (b : Bool) : Card := { c with faceUp := b }

/-- Identity payload recorded by `Card.toString()` (rank and suit). -/
def toKey (c : Card) : Rank × Suit := (c.rank, c.suit)

end Card

/-- Kind of a stack (`StackType` in types/global). -/
inductive StackType where
  | stock | waste | foundation | tableau
deriving DecidableEq, Repr

/-- A pile of cards (`CardStack`): its kind, slot index and card list,
bottom first, top last (JS array push order). -/
structure CardStack where
  type : StackType
  index : Nat
  cards : List Card
deriving DecidableEq, Repr

/-- Placeholder stack used to totalize list indexing; the engine only
ever dereferences valid stack references. -/
def dummyStack : CardStack := ⟨StackType.stock, 0, []⟩

namespace CardStack

/-- Top card of a stack (`CardStack.getTopCard`). -/
def getTopCard (s : CardStack) : Option Card := s.cards.getLast?

/-- Number of cards (`CardStack.getCardCount`). -/
def getCardCount (s : CardStack) : Nat := s.cards.length

/-- Emptiness test (`CardStack.isEmpty`). -/
def isEmpty (s : CardStack) : Bool := s.cards.isEmpty

/-- Push a card on top (`CardStack.addCard`; the rendering side effects
are outside the model). -/
def addCard (s : CardStack) (c : Card) : CardStack :=
  { s with cards := s.cards ++ [c] }

/-- Remove the first occurrence of a card from a list, mirroring
`indexOf` + `splice` in `CardStack.removeCard`; no occurrence means no
change. -/
def removeFirstCard : List Card → Card → List Card
  | [], _ => []
  | x :: xs, c => if x = c then xs else x :: removeFirstCard xs c

/-- Remove a card (`CardStack.removeCard`). -/
def removeCard (s : CardStack) (c : Card) : CardStack :=
  { s with cards := removeFirstCard s.cards c }

/-- Foundation placement rule (`CardStack.canPlaceOnFoundation`). -/
def canPlaceOnFoundation (s : CardStack) (c : Card) : Bool :=
  match s.getTopCard with
  | none => c.getValue == 1
  | some top => c.suit = top.suit && c.getValue == top.getValue + 1

/-- Tableau placement rule (`CardStack.canPlaceOnTableau`). -/
def canPlaceOnTableau (s : CardStack) (c : Card) : Bool :=
  match s.getTopCard with
  | none => c.getValue == 13
  | some top =>
    if !top.faceUp then false
    else c.isRed != top.isRed && c.getValue == top.getValue - 1

/-- Destination acceptance dispatch (`CardStack.canAcceptCard`). -/
def canAcceptCard (s : CardStack) (c : Card) : Bool :=
  match s.type with
  | .foundation => s.canPlaceOnFoundation c
  | .tableau => s.canPlaceOnTableau c
  | .waste => false
  | .stock => false

/-- Run-extraction loop body of `CardStack.getValidSequence`: extends the
run card by card and stops at the first face-down card, same-color pair
or rank gap. -/
def getValidSeqAux : Card → List Card → List Card
  | _, [] => []
  | prev, c :: rest =>
    if !prev.faceUp || !c.faceUp then []
    else if prev.isRed == c.isRed then []
    else if prev.getValue != c.getValue + 1 then []
    else c :: getValidSeqAux c rest

/-- Longest valid tableau run from the front of a card list
(`CardStack.getValidSequence`). -/
def getValidSequence : List Card → List Card
  | [] => []
  | [c] => [c]
  | c :: rest => c :: getValidSeqAux c rest

/-- Tail of a stack from an index, restricted to a valid run on tableau
stacks (`CardStack.getCardsFromIndex`). -/
def getCardsFromIndex (s : CardStack) (startIndex : Nat) : List Card :=
  if startIndex ≥ s.cards.length then []
  else
    let cardsFromIndex := s.cards.drop startIndex
    if s.type = StackType.tableau then getValidSequence cardsFromIndex
    else cardsFromIndex

end CardStack

/-- Total number of cards, `CONSTANTS.GAME.TOTAL_CARDS`. -/
def TOTAL_CARDS : Nat := 52

/-- Engine-relevant game settings (`GameSettings`); presentation-only
flags (`showTimer`, `autoComplete`, `hintEnabled`) are outside the
model. -/
structure GameSettings where
  drawCount : Nat
  allowUndo : Bool
deriving DecidableEq, Repr

/-- Move record (`MoveData`), a tagged variant over the five move kinds
the engine creates; card identities are the rank/suit payload of
`card.toString()`.  The wall-clock `timestamp` field is outside the
model. -/
inductive MoveData where
  | card_move (card : Rank × Suit) (fromType toType : StackType)
      (fromIndex toIndex : Nat)
  | multi_card_move (cards : List (Rank × Suit)) (count : Nat)
      (fromType toType : StackType) (fromIndex toIndex : Nat)
  | stock_to_waste (cards : List (Rank × Suit)) (count : Nat)
  | waste_to_stock (count : Nat)
  | card_flip (card : Rank × Suit) (stackType : StackType) (stackIndex : Nat)
deriving DecidableEq, Repr

/-- History entry: a move record plus the `moveNumber` that
`GameState.recordMove` stamps onto it. -/
structure HistoryEntry where
  data : MoveData
  moveNumber : Nat
deriving DecidableEq, Repr

/-- Engine-relevant part of `GameState`; score, timing and statistics
are read by the UI only and are outside the model. -/
structure GameState where
  isGameStarted : Bool
  isGameCompleted : Bool
  isPaused : Bool
  moves : Nat
  foundationCards : Nat
  moveHistory : List HistoryEntry
  settings : GameSettings
deriving DecidableEq, Repr

namespace GameState

/-- History capacity (`maxHistorySize`). -/
def maxHistorySize : Nat := 100

/-- Playing-state test (`GameState.isPlaying`). -/
def isPlaying (gs : GameState) : Bool :=
  gs.isGameStarted && !gs.isPaused && !gs.isGameCompleted

/-- Append a move record (`GameState.recordMove`): ignored unless the
game is started; increments `moves`, stamps the move number, and evicts
the oldest entry past the capacity. -/
def recordMove (gs : GameState) (md : MoveData) : GameState :=
  if !gs.isGameStarted then gs
  else
    let moves := gs.moves + 1
    let hist := gs.moveHistory ++ [⟨md, moves⟩]
    let hist := if hist.length > maxHistorySize then hist.drop 1 else hist
    { gs with moves := moves, moveHistory := hist }

/-- Pop the most recent move record (`GameState.undoLastMove`): `none`
when undo is disabled or the history is empty, otherwise returns the
record and decrements `moves` (floored at 0). -/
def undoLastMove (gs : GameState) : Option HistoryEntry × GameState :=
  if !gs.settings.allowUndo || gs.moveHistory.length == 0 then (none, gs)
  else
    match gs.moveHistory.getLast? with
    | none => (none, gs)
    | some last =>
      (some last,
        { gs with moveHistory := gs.moveHistory.dropLast,
                  moves := gs.moves - 1 })

/-- Undo availability (`GameState.canUndo`). -/
def canUndo (gs : GameState) : Bool :=
  gs.settings.allowUndo && decide (gs.moveHistory.length > 0)
    && gs.isGameStarted && !gs.isGameCompleted

/-- Game completion (`GameState.completeGame`; the score and statistics
updates are outside the model). -/
def completeGame (gs : GameState) : GameState :=
  if gs.isGameCompleted then gs
  else { gs with isGameCompleted := true, isGameStarted := false }

/-- Foundation counter increment (`GameState.addToFoundation`); returns
whether the game just completed. -/
def addToFoundation (gs : GameState) : Bool × GameState :=
  let gs := { gs with foundationCards := gs.foundationCards + 1 }
  if gs.foundationCards == TOTAL_CARDS then (true, gs.completeGame)
  else (false, gs)

/-- Foundation counter decrement (`GameState.removeFromFoundation`),
floored at 0. -/
def removeFromFoundation (gs : GameState) : GameState :=
  { gs with foundationCards := gs.foundationCards - 1 }

end GameState

namespace GameLogic

open CardStack GameState

/-- Foundation move rule (`GameLogic.canMoveToFoundation`). -/
def canMoveToFoundation (c : Card) (foundationStack : CardStack) : Bool :=
  match foundationStack.cards.getLast? with
  | none => c.getValue == 1
  | some top => c.suit = top.suit && c.getValue == top.getValue + 1

/-- Tableau move rule (`GameLogic.canMoveToTableau`). -/
def canMoveToTableau (c : Card) (tableauStack : CardStack) : Bool :=
  match tableauStack.cards.getLast? with
  | none => c.getValue == 13
  | some top =>
    if !top.faceUp then false
    else c.isRed != top.isRed && c.getValue == top.getValue - 1

/-- Single-move validation (`GameLogic.validateMove`): requires a
playing game and a face-up card, then dispatches on the destination
kind; `fromStack` is accepted but never inspected, as in the source. -/
def validateMove (gs : GameState) (card : Card)
    (fromStack toStack : CardStack) : Bool :=
  let _ := fromStack
  if !gs.isPlaying then false
  else if !card.faceUp then false
  else
    match toStack.type with
    | .foundation => canMoveToFoundation card toStack
    | .tableau => canMoveToTableau card toStack
    | .waste => false
    | .stock => false

/-- Run-shape check (`GameLogic.areCardsSequential`): successive cards
must be face-up, alternate color and descend by exactly 1. -/
def areCardsSequential : List Card → Bool
  | [] => true
  | [_] => true
  | a :: b :: rest =>
    if !a.faceUp || !b.faceUp then false
    else if a.isRed == b.isRed then false
    else if a.getValue != b.getValue + 1 then false
    else areCardsSequential (b :: rest)

/-- Multi-move validation (`GameLogic.validateMultiCardMove`). -/
def validateMultiCardMove (gs : GameState) (cards : List Card)
    (fromStack toStack : CardStack) : Bool :=
  match cards with
  | [] => false
  | c0 :: _ =>
    fromStack.type = StackType.tableau && areCardsSequential cards
      && validateMove gs c0 fromStack toStack

/-- Draw-loop of `GameLogic.drawFromStock`: removes up to `k` cards from
the stock top, flips each face-up and pushes it onto the waste; returns
the new stock, the new waste and the drawn cards in removal order. -/
def drawLoop : Nat → List Card → List Card → List Card × List Card × List Card
  | 0, scards, wcards => (scards, wcards, [])
  | k + 1, scards, wcards =>
    match scards.getLast? with
    | none => (scards, wcards, [])
    | some c =>
      let c := c.flip true
      let r := drawLoop k scards.dropLast (wcards ++ [c])
      (r.1, r.2.1, c :: r.2.2)

/-- Waste recycling (`GameLogic.recycleWasteToStock`): no-op on an empty
waste; otherwise walks the reversed waste snapshot, removing each card
from the waste and pushing it face-down onto the stock, records a
`waste_to_stock` move and returns the recycled cards (face-down, as the
mutated objects are by then). -/
def recycleWasteToStock (gs : GameState) (stock waste : CardStack) :
    GameState × CardStack × CardStack × List Card :=
  if waste.cards.isEmpty then (gs, stock, waste, [])
  else
    let cards := waste.cards.reverse
    let step := cards.foldl
      (fun acc c =>
        (CardStack.removeFirstCard acc.1 c, acc.2 ++ [c.flip false]))
      (waste.cards, stock.cards)
    let gs := gs.recordMove (.waste_to_stock cards.length)
    (gs, { stock with cards := step.2 }, { waste with cards := step.1 },
      cards.map (fun c => c.flip false))

/-- Stock draw (`GameLogic.drawFromStock`): recycles when the stock is
empty, otherwise draws `min drawCount (stock size)` cards to the waste
and records a `stock_to_waste` move. -/
def drawFromStock (gs : GameState) (stock waste : CardStack) :
    GameState × CardStack × CardStack × List Card :=
  if stock.cards.isEmpty then recycleWasteToStock gs stock waste
  else
    let k := min gs.settings.drawCount stock.cards.length
    let r := drawLoop k stock.cards waste.cards
    let drawn := r.2.2
    let gs := gs.recordMove (.stock_to_waste (drawn.map Card.toKey) drawn.length)
    (gs, { stock with cards := r.1 }, { waste with cards := r.2.1 }, drawn)

/-- Flip candidates (`GameLogic.findCardsToFlip`): face-down top cards
of the given tableau allStacks. -/
def findCardsToFlip (tableauStacks : List CardStack) : List Card :=
  tableauStacks.filterMap (fun s =>
    match s.getTopCard with
    | some c => if !c.faceUp then some c else none
    | none => none)

/-- Auto-completion candidates (`GameLogic.findAutoCompletableCards`):
for every non-foundation stack whose top card is face-up, one entry per
foundation that accepts that card.  Stack references are modelled by
positions into the all-stacks list. -/
def findAutoCompletableCards (allStacks : List CardStack) :
    List (Card × Nat × Nat) :=
  let fnds := allStacks.enum.filter (fun p => p.2.type = StackType.foundation)
  allStacks.enum.flatMap (fun p =>
    if p.2.type = StackType.foundation then []
    else
      match p.2.getTopCard with
      | none => []
      | some c =>
        if c.faceUp then
          fnds.filterMap (fun q =>
            if canMoveToFoundation c q.2 then some (c, p.1, q.1) else none)
        else [])

/-- Hint entry of `GameLogic.findHints`: the card, the source and
destination stack positions, and whether this is a flip hint. -/
structure Hint where
  card : Card
  fromIdx : Nat
  toIdx : Nat
  isFlipHint : Bool
deriving DecidableEq, Repr

/-- Hint enumeration (`GameLogic.findHints`), in the source's fixed
order: foundation moves, waste-top to tableau, tableau-top to other
tableau, then flip hints. -/
def findHints (allStacks : List CardStack) : List Hint :=
  let auto := (findAutoCompletableCards allStacks).map
    (fun t => Hint.mk t.1 t.2.1 t.2.2 false)
  let tabs := allStacks.enum.filter (fun p => p.2.type = StackType.tableau)
  let wasteHints :=
    match allStacks.enum.find? (fun p => p.2.type = StackType.waste) with
    | none => []
    | some w =>
      if w.2.isEmpty then []
      else
        match w.2.getTopCard with
        | none => []
        | some c =>
          if c.faceUp then
            tabs.filterMap (fun t =>
              if canMoveToTableau c t.2 then some (Hint.mk c w.1 t.1 false)
              else none)
          else []
  let tabMoves := tabs.flatMap (fun f =>
    match f.2.getTopCard with
    | none => []
    | some c =>
      if !c.faceUp then []
      else
        tabs.filterMap (fun t =>
          if f.1 = t.1 then none
          else if canMoveToTableau c t.2 then some (Hint.mk c f.1 t.1 false)
          else none))
  let flips := tabs.filterMap (fun t =>
    match t.2.getTopCard with
    | some c => if !c.faceUp then some (Hint.mk c t.1 t.1 true) else none
    | none => none)
  auto ++ wasteHints ++ tabMoves ++ flips

/-- Block detection (`GameLogic.isGameBlocked`): no hints, and the first
stock stack and first waste stack (when present) are empty. -/
def isGameBlocked (allStacks : List CardStack) : Bool :=
  let hints := findHints allStacks
  let canDrawFromStock :=
    match allStacks.find? (fun s => s.type = StackType.stock) with
    | some s => !s.isEmpty
    | none => false
  let canDrawFromWaste :=
    match allStacks.find? (fun s => s.type = StackType.waste) with
    | some s => !s.isEmpty
    | none => false
  hints.isEmpty && !canDrawFromStock && !canDrawFromWaste

/-- Single-card move (`GameLogic.executeSingleCardMove`) over the
all-stacks list, with the source and destination given by position: on
a failed validation nothing changes; otherwise the card is removed from
the source (a silent no-op when absent, as `indexOf` returns -1), pushed
onto the destination, the foundation counter is maintained, and a
`card_move` is recorded unless the move just completed the game. -/
def executeSingleCardMove (gs : GameState) (allStacks : List CardStack)
    (card : Card) (i j : Nat) : Bool × GameState × List CardStack :=
  let fromStack := allStacks.getD i dummyStack
  let toStack := allStacks.getD j dummyStack
  if !validateMove gs card fromStack toStack then (false, gs, allStacks)
  else
    let ssA := allStacks.set i (fromStack.removeCard card)
    let toStack1 := ssA.getD j dummyStack
    let ssB := ssA.set j (toStack1.addCard card)
    let fstep : Bool × GameState :=
      if toStack.type = StackType.foundation then gs.addToFoundation
      else (false, gs)
    if fstep.1 then (true, fstep.2, ssB)
    else
      let gs1 :=
        if fromStack.type = StackType.foundation then
          fstep.2.removeFromFoundation
        else fstep.2
      (true,
        gs1.recordMove (.card_move card.toKey fromStack.type toStack.type
          fromStack.index toStack.index),
        ssB)

/-- Multi-card move (`GameLogic.executeMultiCardMove`): validated as a
whole, then each card is removed from the source and pushed onto the
destination in order, and one `multi_card_move` is recorded. -/
def executeMultiCardMove (gs : GameState) (allStacks : List CardStack)
    (cards : List Card) (i j : Nat) : Bool × GameState × List CardStack :=
  let fromStack := allStacks.getD i dummyStack
  let toStack := allStacks.getD j dummyStack
  if !validateMultiCardMove gs cards fromStack toStack then (false, gs, allStacks)
  else
    let ssB := cards.foldl
      (fun ss c =>
        let f := ss.getD i dummyStack
        let ss1 := ss.set i (f.removeCard c)
        let t := ss1.getD j dummyStack
        ss1.set j (t.addCard c))
      allStacks
    (true,
      gs.recordMove (.multi_card_move (cards.map Card.toKey) cards.length
        fromStack.type toStack.type fromStack.index toStack.index),
      ssB)

/-- Auto-complete sweep (`GameLogic.executeAutoComplete`): one pass over
the candidate pairs found at entry, executing each single-card move in
order (ignoring the per-move results); returns `false` exactly when no
pair was found. -/
def executeAutoComplete (gs : GameState) (allStacks : List CardStack) :
    Bool × GameState × List CardStack :=
  let pairs := findAutoCompletableCards allStacks
  if pairs.isEmpty then (false, gs, allStacks)
  else
    let fin := pairs.foldl
      (fun acc t =>
        let r := executeSingleCardMove acc.1 acc.2 t.1 t.2.1 t.2.2
        (r.2.1, r.2.2))
      (gs, allStacks)
    (true, fin.1, fin.2)

/-- Undo dispatch (`GameLogic.undoMove`): every reversal handler is a
stub that logs and returns `true`; no stack or card state is touched,
which is why this function needs no state argument. -/
def undoMove : MoveData → Bool
  | .card_move .. => true
  | .multi_card_move .. => true
  | .stock_to_waste .. => true
  | .waste_to_stock .. => true
  | .card_flip .. => true

end GameLogic

/-- Controller-level undo (`GameController.undoLastMove`): checks
`canUndo`, pops the record via `GameState.undoLastMove` and hands it to
the stub `GameLogic.undoMove`; the allStacks are passed through untouched
because the reversal handlers never look at them. -/
def controllerUndoLastMove (gs : GameState) (allStacks : List CardStack) :
    Bool × GameState × List CardStack :=
  if !gs.canUndo then (false, gs, allStacks)
  else
    match gs.undoLastMove with
    | (none, gs1) => (false, gs1, allStacks)
    | (some entry, gs1) =>
      let _ := GameLogic.undoMove entry.data
      (true, gs1, allStacks)

/-- Deal `n` cards off the top of a deck (`Deck.dealCard` popping the
array's last element), returning them in dealt order together with the
remaining deck. -/
def dealRows : Nat → List Card → List Card × List Card
  | 0, deck => ([], deck)
  | n + 1, deck =>
    match deck.getLast? with
    | none => ([], deck)
    | some c =>
      let r := dealRows n deck.dropLast
      (c :: r.1, r.2)

/-- Initial Klondike deal (`Deck.dealForSolitaire`): column `col` gets
`col + 1` cards with only the last one face-up; the rest of the deck is
dealt face-down to the stock. -/
def dealForSolitaire (deck : List Card) : List (List Card) × List Card :=
  let step := (List.range 7).foldl
    (fun acc col =>
      let r := dealRows (col + 1) acc.2
      let flipped := r.1.enum.map (fun p => p.2.flip (p.1 == col))
      (acc.1 ++ [flipped], r.2))
    ([], deck)
  (step.1, step.2.reverse.map (fun c => c.flip false))

/-- All-stacks list of a freshly dealt game, in the order of
`GameController.getAllStacks`: stock, waste, the four foundations, the
seven tableau columns (`GameController.dealCards` pushes each dealt
column into its stack). -/
def freshDeal (deck : List Card) : List CardStack :=
  let d := dealForSolitaire deck
  [⟨StackType.stock, 0, d.2⟩, ⟨StackType.waste, 0, []⟩]
    ++ (List.range 4).map (fun i => ⟨StackType.foundation, i, []⟩)
    ++ (List.range 7).map (fun i => ⟨StackType.tableau, i, d.1.getD i []⟩)

/-- Ranks in the order of `CONSTANTS.RANKS`. -/
def allRanks : List Rank :=
  [.rA, .r2, .r3, .r4, .r5, .r6, .r7, .r8, .r9, .r10, .rJ, .rQ, .rK]

/-- Suits in the order of `CONSTANTS.SUITS`. -/
def allSuits : List Suit := [.hearts, .diamonds, .clubs, .spades]

/-- Standard 52-card deck in creation order (`Deck.createDeck`), all
face-down. -/
def allCards : List Card :=
  allSuits.flatMap (fun s => allRanks.map (fun r => ⟨s, r, false⟩))

/-- Total number of cards held across a stack collection. -/
def countAllCards (allStacks : List CardStack) : Nat :=
  (allStacks.map (fun s => s.cards.length)).sum

/-- Number of occurrences of a given rank/suit identity across a stack
collection (ignoring face state). -/
def countCard (allStacks : List CardStack) (r : Rank) (su : Suit) : Nat :=
  (allStacks.map (fun s =>
    (s.cards.filter (fun c => c.rank = r && c.suit = su)).length)).sum

/-- Shuffle outcome used as a concrete witness: the ace of hearts is the
first card dealt (so it sits face-up as the single card of tableau
column 0) and the other three aces go to the stock; `Deck.dealCard`
pops from the array's end, so the pop order is this list reversed. -/
def buggyDeck : List Card :=
  let aceD : Card := ⟨Suit.diamonds, Rank.rA, false⟩
  let aceC : Card := ⟨Suit.clubs, Rank.rA, false⟩
  let aceS : Card := ⟨Suit.spades, Rank.rA, false⟩
  let aceH : Card := ⟨Suit.hearts, Rank.rA, false⟩
  let nonAces : List Card := allCards.filter (fun c => c.rank != Rank.rA)
  (aceH :: (nonAces ++ [aceD, aceC, aceS])).reverse

/-- Game state right after `GameState.reset()` followed by
`GameState.startGame()`, with the default settings (`drawCount = 3`,
`allowUndo = true`). -/
def freshGameState : GameState :=
  { isGameStarted := true, isGameCompleted := false, isPaused := false,
    moves := 0, foundationCards := 0, moveHistory := [],
    settings := { drawCount := 3, allowUndo := true } }

/-! ## Specification-side predicates

These follow the wording of the specification's acceptance table and run
definition; the theorems below compare them with the embedded code. -/

/-- Specification wording of foundation acceptance: an empty foundation
accepts exactly rank 1, a non-empty one exactly a same-suit card of the
top card's rank plus one. -/
def foundationAcceptSpec (c : Card) (d : CardStack) : Prop :=
  (d.cards = [] ∧ c.getValue = 1) ∨
    (∃ top, d.getTopCard = some top ∧ c.suit = top.suit ∧
      c.getValue = top.getValue + 1)

/-- Specification wording of tableau acceptance: an empty tableau
accepts exactly rank 13, a non-empty one exactly an opposite-color card
of the top card's rank minus one, and only when the top card is
face-up. -/
def tableauAcceptSpec (c : Card) (d : CardStack) : Prop :=
  (d.cards = [] ∧ c.getValue = 13) ∨
    (∃ top, d.getTopCard = some top ∧ top.faceUp = true ∧
      c.isRed ≠ top.isRed ∧ c.getValue = top.getValue - 1)

/-- Specification wording of the full acceptance table: dispatch on the
destination kind, with waste and stock never accepting. -/
def acceptSpec (c : Card) (d : CardStack) : Prop :=
  match d.type with
  | .foundation => foundationAcceptSpec c d
  | .tableau => tableauAcceptSpec c d
  | .waste => False
  | .stock => False

/-- C2 (acceptance rules): `CardStack.canAcceptCard` agrees with the
specification's acceptance table for every card and destination stack,
and the duplicated `GameLogic` move rules coincide with the
`CardStack` placement rules. -/
theorem acceptance_rules_match_spec (c : Card) (d : CardStack) :
    (d.canAcceptCard c = true ↔ acceptSpec c d)
    ∧ GameLogic.canMoveToFoundation c d = d.canPlaceOnFoundation c
    ∧ GameLogic.canMoveToTableau c d = d.canPlaceOnTableau c := by
  refine ⟨?_, rfl, rfl⟩
  rcases d with ⟨ty, idx, cs⟩
  cases ty
  case stock => simp [CardStack.canAcceptCard, acceptSpec]
  case waste => simp [CardStack.canAcceptCard, acceptSpec]
  case foundation =>
    simp only [CardStack.canAcceptCard, acceptSpec, foundationAcceptSpec,
      CardStack.canPlaceOnFoundation, CardStack.getTopCard]
    cases h : cs.getLast? with
    | none =>
      simp [h, List.getLast?_eq_none_iff.mp h]
    | some top =>
      have hne : cs ≠ [] := by
        intro hnil
        rw [hnil] at h
        exact Option.noConfusion h
      simp [h, hne]
  case tableau =>
    simp only [CardStack.canAcceptCard, acceptSpec, tableauAcceptSpec,
      CardStack.canPlaceOnTableau, CardStack.getTopCard]
    cases h : cs.getLast? with
    | none =>
      simp [h, List.getLast?_eq_none_iff.mp h]
    | some top =>
      have hne : cs ≠ [] := by
        intro hnil
        rw [hnil] at h
        exact Option.noConfusion h
      cases hf : top.faceUp <;> simp [h, hne, hf]

/-- C3 (block detection): whenever the all-stacks collection has a first
stock stack and a first waste stack, `isGameBlocked` holds exactly when
there are no hints and both of those stacks are empty. -/
theorem isGameBlocked_iff (allStacks : List CardStack) (st wt : CardStack)
    (hs : allStacks.find? (fun s => s.type = StackType.stock) = some st)
    (hw : allStacks.find? (fun s => s.type = StackType.waste) = some wt) :
    GameLogic.isGameBlocked allStacks = true ↔
      (GameLogic.findHints allStacks = [] ∧ st.cards = [] ∧ wt.cards = []) := by
  unfold GameLogic.isGameBlocked
  rw [hs, hw]
  simp only [Bool.and_eq_true, Bool.not_eq_true', CardStack.isEmpty,
    List.isEmpty_iff, List.isEmpty_eq_true, and_assoc]
  simp [List.isEmpty_iff]

/-- C3 witness: a collection whose stock and waste are empty and that
yields no hints is detected as blocked. -/
theorem isGameBlocked_iff_witness :
    GameLogic.isGameBlocked
      [⟨StackType.stock, 0, []⟩, ⟨StackType.waste, 0, []⟩,
       ⟨StackType.foundation, 0, []⟩, ⟨StackType.tableau, 0, []⟩] = true := by
  exact (isGameBlocked_iff _ ⟨StackType.stock, 0, []⟩ ⟨StackType.waste, 0, []⟩
    (by decide) (by decide)).mpr ⟨by decide, rfl, rfl⟩

/-- C10 (undo gating): `GameState.undoLastMove` yields a record exactly
when undo is allowed and the history is non-empty; with undo disabled it
is a strict no-op; and `canUndo` additionally demands a started,
uncompleted game. -/
theorem undoLastMove_gating (gs : GameState) :
    ((gs.undoLastMove).1.isSome = true ↔
      (gs.settings.allowUndo = true ∧ gs.moveHistory ≠ []))
    ∧ (gs.settings.allowUndo = false → gs.undoLastMove = (none, gs))
    ∧ (gs.canUndo = true ↔
        (gs.settings.allowUndo = true ∧ gs.moveHistory ≠ []
          ∧ gs.isGameStarted = true ∧ gs.isGameCompleted = false)) := by
  refine ⟨?_, ?_, ?_⟩
  · unfold GameState.undoLastMove
    cases hu : gs.settings.allowUndo with
    | false => simp
    | true =>
      cases hh : gs.moveHistory with
      | nil => simp
      | cons a as =>
        rw [List.getLast?_eq_getLast_of_ne_nil (List.cons_ne_nil a as)]
        simp
  · intro hu
    unfold GameState.undoLastMove
    simp [hu]
  · unfold GameState.canUndo
    constructor
    · intro h
      simp only [Bool.and_eq_true, decide_eq_true_eq] at h
      exact ⟨h.1.1.1, List.length_pos.mp h.1.1.2, h.1.2, by
        simpa using h.2⟩
    · rintro ⟨h1, h2, h3, h4⟩
      simp [h1, h2, h3, h4, List.length_pos]

/-- Started game with one recorded move, used as a witness state. -/
def gsOneMove : GameState :=
  { freshGameState with moveHistory := [⟨.waste_to_stock 3, 1⟩] }

/-- Variant of `gsOneMove` with the `allowUndo` setting disabled. -/
def gsNoUndo : GameState :=
  { gsOneMove with settings := ⟨3, false⟩ }

/-- C10 witness: with undo allowed, a one-record history and a started,
uncompleted game, undo is available and `undoLastMove` returns a
record; with undo disabled it is a no-op. -/
theorem undoLastMove_gating_witness :
    ((GameState.undoLastMove gsOneMove).1.isSome = true)
    ∧ GameState.undoLastMove gsNoUndo = (none, gsNoUndo)
    ∧ GameState.canUndo gsOneMove = true := by
  refine ⟨?_, ?_, ?_⟩
  · exact (undoLastMove_gating gsOneMove).1.mpr ⟨rfl, by decide⟩
  · exact (undoLastMove_gating gsNoUndo).2.1 rfl
  · exact (undoLastMove_gating gsOneMove).2.2.mpr ⟨rfl, by decide, rfl, rfl⟩

/-- C9 (undo is metadata-only): every reversal handler accepts its move
record (`undoMove` is `true` on all five kinds), the controller's undo
path returns the stacks it was given unchanged, only the move history
and move counter of the game state can change, and when undo goes
through it pops exactly the most recent record. -/
theorem undoMove_metadata_only (gs : GameState) (allStacks : List CardStack) :
    (∀ md : MoveData, GameLogic.undoMove md = true)
    ∧ (controllerUndoLastMove gs allStacks).2.2 = allStacks
    ∧ (∃ h m, (controllerUndoLastMove gs allStacks).2.1
        = { gs with moveHistory := h, moves := m })
    ∧ (gs.canUndo = true →
        (controllerUndoLastMove gs allStacks).2.1.moveHistory
          = gs.moveHistory.dropLast) := by
  refine ⟨?_, ?_, ?_, ?_⟩
  · intro md
    cases md <;> rfl
  · unfold controllerUndoLastMove
    cases hc : gs.canUndo with
    | false => simp
    | true =>
      simp only [Bool.not_true, Bool.false_eq_true, if_neg, Bool.not_eq_true]
      unfold GameState.undoLastMove
      cases hu : (!gs.settings.allowUndo || gs.moveHistory.length == 0) with
      | true => simp
      | false =>
        simp only [Bool.false_eq_true, if_neg, hu]
        cases hl : gs.moveHistory.getLast? <;> simp
  · unfold controllerUndoLastMove
    cases hc : gs.canUndo with
    | false =>
      refine ⟨gs.moveHistory, gs.moves, ?_⟩
      simp
    | true =>
      simp only [Bool.not_true, Bool.false_eq_true, if_neg, Bool.not_eq_true]
      unfold GameState.undoLastMove
      cases hu : (!gs.settings.allowUndo || gs.moveHistory.length == 0) with
      | true =>
        refine ⟨gs.moveHistory, gs.moves, ?_⟩
        simp [hu]
      | false =>
        cases hl : gs.moveHistory.getLast? with
        | none =>
          refine ⟨gs.moveHistory, gs.moves, ?_⟩
          simp [hu, hl]
        | some e =>
          refine ⟨gs.moveHistory.dropLast, gs.moves - 1, ?_⟩
          simp [hu, hl]
  · intro hc
    unfold controllerUndoLastMove
    rw [hc]
    have hu : (!gs.settings.allowUndo || gs.moveHistory.length == 0) = false := by
      unfold GameState.canUndo at hc
      simp only [Bool.and_eq_true, decide_eq_true_eq] at hc
      simp [hc.1.1.1, Nat.pos_iff_ne_zero.mp hc.1.1.2]
    unfold GameState.undoLastMove
    rw [hu]
    have hne : gs.moveHistory ≠ [] := by
      intro hnil
      rw [hnil] at hu
      simp at hu
    rw [List.getLast?_eq_getLast_of_ne_nil hne]
    simp

/-- C9 witness: undoing from a started game with one recorded move
leaves a concrete stack collection untouched and pops the record. -/
theorem undoMove_metadata_only_witness :
    GameLogic.undoMove (.waste_to_stock 3) = true
    ∧ (controllerUndoLastMove gsOneMove [dummyStack]).2.2 = [dummyStack]
    ∧ (controllerUndoLastMove gsOneMove [dummyStack]).2.1.moveHistory = [] := by
  refine ⟨(undoMove_metadata_only gsOneMove [dummyStack]).1 _,
    (undoMove_metadata_only gsOneMove [dummyStack]).2.1, ?_⟩
  have h := (undoMove_metadata_only gsOneMove [dummyStack]).2.2.2 (by decide)
  simpa using h

/-- C8 (failure is a silent no-op): a single- or multi-card move that
fails validation returns `false` and changes neither the stacks nor the
game state (so no stack's card list, no face state, neither the move
count nor the history); a draw with stock and waste both empty returns
the empty list and changes nothing.  Validation itself fails whenever
the game is not playing, the card is face-down, or the destination is a
waste or stock stack. -/
theorem failure_is_silent_noop (gs : GameState) (allStacks : List CardStack)
    (card : Card) (cards : List Card) (i j : Nat) (stock waste f t : CardStack) :
    (GameLogic.validateMove gs card (allStacks.getD i dummyStack)
        (allStacks.getD j dummyStack) = false →
      GameLogic.executeSingleCardMove gs allStacks card i j
        = (false, gs, allStacks))
    ∧ (GameLogic.validateMultiCardMove gs cards (allStacks.getD i dummyStack)
        (allStacks.getD j dummyStack) = false →
      GameLogic.executeMultiCardMove gs allStacks cards i j
        = (false, gs, allStacks))
    ∧ (stock.cards = [] → waste.cards = [] →
      GameLogic.drawFromStock gs stock waste = (gs, stock, waste, []))
    ∧ (gs.isPlaying = false → GameLogic.validateMove gs card f t = false)
    ∧ (card.faceUp = false → GameLogic.validateMove gs card f t = false)
    ∧ (t.type = StackType.waste ∨ t.type = StackType.stock →
      GameLogic.validateMove gs card f t = false) := by
  refine ⟨?_, ?_, ?_, ?_, ?_, ?_⟩
  · intro h
    simp only [List.getD_eq_getElem?_getD] at h
    simp [GameLogic.executeSingleCardMove, h]
  · intro h
    simp only [List.getD_eq_getElem?_getD] at h
    simp [GameLogic.executeMultiCardMove, h]
  · intro hs hw
    unfold GameLogic.drawFromStock GameLogic.recycleWasteToStock
    simp [hs, hw, CardStack.isEmpty]
  · intro h
    unfold GameLogic.validateMove
    simp [h]
  · intro h
    unfold GameLogic.validateMove
    simp [h]
  · intro h
    unfold GameLogic.validateMove
    rcases h with h | h <;> rw [h] <;> simp

/-- C8 witness: a face-down card move, an empty multi-card move and a
draw on empty stock and waste are all concrete no-ops. -/
theorem failure_is_silent_noop_witness :
    GameLogic.executeSingleCardMove freshGameState [dummyStack]
        ⟨Suit.hearts, Rank.rA, false⟩ 0 0 = (false, freshGameState, [dummyStack])
    ∧ GameLogic.executeMultiCardMove freshGameState [dummyStack] [] 0 0
        = (false, freshGameState, [dummyStack])
    ∧ GameLogic.drawFromStock freshGameState ⟨StackType.stock, 0, []⟩
        ⟨StackType.waste, 0, []⟩
        = (freshGameState, ⟨StackType.stock, 0, []⟩, ⟨StackType.waste, 0, []⟩, []) := by
  refine ⟨?_, ?_, ?_⟩
  · exact (failure_is_silent_noop freshGameState [dummyStack]
      ⟨Suit.hearts, Rank.rA, false⟩ [] 0 0 dummyStack dummyStack dummyStack
      dummyStack).1 (by decide)
  · exact (failure_is_silent_noop freshGameState [dummyStack]
      ⟨Suit.hearts, Rank.rA, false⟩ [] 0 0 dummyStack dummyStack dummyStack
      dummyStack).2.1 (by decide)
  · exact (failure_is_silent_noop freshGameState [dummyStack]
      ⟨Suit.hearts, Rank.rA, false⟩ [] 0 0 ⟨StackType.stock, 0, []⟩
      ⟨StackType.waste, 0, []⟩ dummyStack dummyStack).2.2.1 rfl rfl

/-- Specification wording of a valid run step: both cards face-up,
alternating color, rank descending by exactly one. -/
def runPairOK (a b : Card) : Prop :=
  a.faceUp = true ∧ b.faceUp = true ∧ a.isRed ≠ b.isRed
    ∧ a.getValue = b.getValue + 1

/-- Run-extraction loop characterization: starting after `prev`, the
loop returns a prefix of the list that chains valid run steps from
`prev`, and no longer such prefix exists. -/
theorem getValidSeqAux_spec (prev : Card) (l : List Card) :
    (∃ rest, l = CardStack.getValidSeqAux prev l ++ rest)
    ∧ List.Chain' runPairOK (prev :: CardStack.getValidSeqAux prev l)
    ∧ ∀ l2 r2, l = l2 ++ r2 → List.Chain' runPairOK (prev :: l2) →
        l2.length ≤ (CardStack.getValidSeqAux prev l).length := by
  induction l generalizing prev with
  | nil =>
    refine ⟨⟨[], rfl⟩, List.chain'_singleton prev, ?_⟩
    intro l2 r2 hsplit _
    rcases List.append_eq_nil.mp hsplit.symm with ⟨h2, -⟩
    simp [h2]
  | cons c rest ih =>
    rcases Classical.em (runPairOK prev c) with hok | hnok
    · have haux : CardStack.getValidSeqAux prev (c :: rest)
          = c :: CardStack.getValidSeqAux c rest := by
        have hbeq : (prev.isRed == c.isRed) = false :=
          beq_eq_false_iff_ne.mpr hok.2.2.1
        have hbne : (prev.getValue != c.getValue + 1) = false := by
          rw [hok.2.2.2]
          exact bne_self_eq_false _
        simp [CardStack.getValidSeqAux, hok.1, hok.2.1, hbeq, hbne]
      obtain ⟨⟨r, hr⟩, hch, hmax⟩ := ih c
      rw [haux]
      refine ⟨⟨r, by rw [List.cons_append]; exact congrArg (c :: ·) hr⟩,
        List.chain'_cons.mpr ⟨hok, hch⟩, ?_⟩
      intro l2 r2 hsplit hch2
      cases l2 with
      | nil => simp
      | cons x l2x =>
        rw [List.cons_append] at hsplit
        have hx : x = c := (List.cons_eq_cons.mp hsplit).1.symm
        have hrest : rest = l2x ++ r2 := (List.cons_eq_cons.mp hsplit).2
        subst hx
        have := hmax l2x r2 hrest (List.chain'_cons.mp hch2).2
        simpa using Nat.succ_le_succ this
    · have haux : CardStack.getValidSeqAux prev (c :: rest) = [] := by
        unfold CardStack.getValidSeqAux
        cases hf1 : prev.faceUp with
        | false => simp
        | true =>
          cases hf2 : c.faceUp with
          | false => simp
          | true =>
            simp only [Bool.not_true, Bool.false_or, Bool.or_self,
              Bool.false_eq_true, if_false, if_neg]
            rcases Classical.em (prev.isRed = c.isRed) with hre | hre
            · simp [hre]
            · have hbeq : (prev.isRed == c.isRed) = false :=
                beq_eq_false_iff_ne.mpr hre
              rcases Classical.em (prev.getValue = c.getValue + 1) with hv | hv
              · exact absurd ⟨hf1, hf2, hre, hv⟩ hnok
              · have hbne : (prev.getValue != c.getValue + 1) = true :=
                  bne_iff_ne.mpr hv

                simp [hbeq, hbne]
      rw [haux]
      refine ⟨⟨c :: rest, rfl⟩, List.chain'_singleton prev, ?_⟩
      intro l2 r2 hsplit hch2
      cases l2 with
      | nil => simp
      | cons x l2x =>
        rw [List.cons_append] at hsplit
        have hx : x = c := (List.cons_eq_cons.mp hsplit).1.symm
        subst hx
        exact absurd (List.chain'_cons.mp hch2).1 hnok

/-- Run characterization of `getValidSequence`: it returns the longest
prefix of its input whose successive pairs are valid run steps, and is
non-empty on non-empty input (a leading face-down card is still
returned alone, as a one-card run has no pairs). -/
theorem getValidSequence_spec (l : List Card) :
    (∃ rest, l = CardStack.getValidSequence l ++ rest)
    ∧ List.Chain' runPairOK (CardStack.getValidSequence l)
    ∧ (∀ l2 r2, l = l2 ++ r2 → List.Chain' runPairOK l2 →
        l2.length ≤ (CardStack.getValidSequence l).length)
    ∧ (l ≠ [] → CardStack.getValidSequence l ≠ []) := by
  match l with
  | [] =>
    refine ⟨⟨[], rfl⟩, List.chain'_nil, ?_, fun h => absurd rfl h⟩
    intro l2 r2 hsplit _
    rcases List.append_eq_nil.mp hsplit.symm with ⟨h2, -⟩
    simp [h2]
  | [c] =>
    refine ⟨⟨[], rfl⟩, List.chain'_singleton c, ?_, fun _ => by
      simp [CardStack.getValidSequence]⟩
    intro l2 r2 hsplit _
    have : l2.length + r2.length = 1 := by
      have := congrArg List.length hsplit
      simpa using this.symm
    have h1 : l2.length ≤ 1 := by omega
    simpa [CardStack.getValidSequence] using h1
  | c :: c2 :: rest =>
    obtain ⟨⟨r, hr⟩, hch, hmax⟩ := getValidSeqAux_spec c (c2 :: rest)
    have hseq : CardStack.getValidSequence (c :: c2 :: rest)
        = c :: CardStack.getValidSeqAux c (c2 :: rest) := rfl
    rw [hseq]
    refine ⟨⟨r, by rw [List.cons_append]; exact congrArg (c :: ·) hr⟩, hch, ?_,
      fun _ => List.cons_ne_nil _ _⟩
    intro l2 r2 hsplit hch2
    cases l2 with
    | nil => simp
    | cons x l2x =>
      rw [List.cons_append] at hsplit
      have hx : x = c := (List.cons_eq_cons.mp hsplit).1.symm
      have hrest : c2 :: rest = l2x ++ r2 := (List.cons_eq_cons.mp hsplit).2
      subst hx
      have := hmax l2x r2 hrest hch2
      simpa using Nat.succ_le_succ this

/-- C4 (run extraction): on a tableau stack, `getCardsFromIndex i` is
the longest prefix of the tail from `i` whose successive pairs are
face-up, alternate color and descend by exactly one (non-empty whenever
`i` is in bounds); on a non-tableau stack it is exactly that tail. -/
theorem getCardsFromIndex_run (s : CardStack) (i : Nat) :
    (s.type = StackType.tableau →
      (∃ rest, s.cards.drop i = s.getCardsFromIndex i ++ rest)
      ∧ List.Chain' runPairOK (s.getCardsFromIndex i)
      ∧ (∀ l r, s.cards.drop i = l ++ r → List.Chain' runPairOK l →
          l.length ≤ (s.getCardsFromIndex i).length)
      ∧ (i < s.cards.length → s.getCardsFromIndex i ≠ []))
    ∧ (s.type ≠ StackType.tableau → s.getCardsFromIndex i = s.cards.drop i) := by
  constructor
  · intro ht
    by_cases hlen : s.cards.length ≤ i
    · have hres : s.getCardsFromIndex i = [] := by
        unfold CardStack.getCardsFromIndex
        simp [hlen]
      have hdrop : s.cards.drop i = [] := List.drop_eq_nil_of_le hlen
      rw [hres, hdrop]
      refine ⟨⟨[], rfl⟩, List.chain'_nil, ?_, fun hlt => absurd hlt (by omega)⟩
      intro l r hsplit _
      rcases List.append_eq_nil.mp hsplit.symm with ⟨h2, -⟩
      simp [h2]
    · have hres : s.getCardsFromIndex i
          = CardStack.getValidSequence (s.cards.drop i) := by
        unfold CardStack.getCardsFromIndex
        simp [hlen, ht]
      obtain ⟨hpre, hch, hmax, hne⟩ := getValidSequence_spec (s.cards.drop i)
      rw [hres]
      refine ⟨hpre, hch, hmax, fun _ => hne ?_⟩
      intro hnil
      exact hlen (List.drop_eq_nil_iff.mp hnil)
  · intro ht
    by_cases hlen : s.cards.length ≤ i
    · rw [List.drop_eq_nil_of_le hlen]
      unfold CardStack.getCardsFromIndex
      simp [hlen]
    · unfold CardStack.getCardsFromIndex
      simp [hlen, ht]

/-- Concrete three-card descending alternating tableau stack. -/
def tabRunStack : CardStack :=
  ⟨StackType.tableau, 0,
    [⟨Suit.spades, Rank.rK, true⟩, ⟨Suit.hearts, Rank.rQ, true⟩,
     ⟨Suit.clubs, Rank.rJ, true⟩]⟩

/-- C4 witness: on a concrete in-bounds index of a tableau stack the
extracted run is non-empty. -/
theorem getCardsFromIndex_run_witness :
    tabRunStack.getCardsFromIndex 1 ≠ [] :=
  ((getCardsFromIndex_run tabRunStack 1).1 rfl).2.2.2 (by decide)

/-- Closed form of the draw loop: drawing `k ≤ n` cards leaves the
first `n - k` stock cards and appends the last `k`, reversed and
face-up, to the waste; the drawn list is that same appended block. -/
theorem drawLoop_spec : ∀ (k : Nat) (scards wcards : List Card),
    k ≤ scards.length →
    GameLogic.drawLoop k scards wcards
      = (scards.take (scards.length - k),
         wcards ++ (scards.drop (scards.length - k)).reverse.map
           (fun c => c.flip true),
         (scards.drop (scards.length - k)).reverse.map (fun c => c.flip true)) := by
  intro k
  induction k with
  | zero =>
    intro scards wcards _
    simp [GameLogic.drawLoop]
  | succ k ih =>
    intro scards wcards hk
    have hne : scards ≠ [] := by
      intro h
      rw [h] at hk
      exact absurd hk (by simp)
    have hlen : scards.dropLast.length = scards.length - 1 := by
      rw [List.dropLast_eq_take]
      simp [List.length_take]
    have hk1 : k ≤ scards.dropLast.length := by omega
    have hm : scards.dropLast.length - k = scards.length - (k + 1) := by omega
    have h0 : scards.dropLast ++ [scards.getLast hne] = scards :=
      List.dropLast_append_getLast hne
    set m := scards.length - (k + 1) with hmdef
    rw [hmdef] at hm
    have htake : scards.dropLast.take m = scards.take m := by
      rw [List.dropLast_eq_take, List.take_take]
      congr 1
      omega
    have hdrop : scards.drop m = scards.dropLast.drop m
        ++ [scards.getLast hne] := by
      conv_lhs => rw [← h0]
      rw [List.drop_append_of_le_length (by omega)]
    rw [GameLogic.drawLoop, List.getLast?_eq_getLast_of_ne_nil hne]
    simp only [ih _ _ hk1, hm, htake, hdrop]
    simp [List.append_assoc]

/-- Experiment driver for the recycle-symmetry claim: draw repeatedly
(up to `fuel` times) until the stock is empty, threading the state of
`GameLogic.drawFromStock`. -/
def drawUntilEmpty : Nat → GameState → CardStack → CardStack →
    GameState × CardStack × CardStack
  | 0, gs, stock, waste => (gs, stock, waste)
  | fuel + 1, gs, stock, waste =>
    if stock.cards.isEmpty then (gs, stock, waste)
    else
      let r := GameLogic.drawFromStock gs stock waste
      drawUntilEmpty fuel r.1 r.2.1 r.2.2.1

/-- Recording a move never touches the settings. -/
theorem recordMove_settings (gs : GameState) (md : MoveData) :
    (gs.recordMove md).settings = gs.settings := by
  unfold GameState.recordMove
  split <;> rfl

/-- Draining the stock with a positive draw count empties the stock and
moves every stock card, reversed and face-up, onto the waste; the
settings survive unchanged. -/
theorem drawUntilEmpty_spec : ∀ (n : Nat) (gs : GameState)
    (stock waste : CardStack), stock.cards.length ≤ n →
    1 ≤ gs.settings.drawCount →
    ∃ gs1, drawUntilEmpty n gs stock waste
        = (gs1, { stock with cards := [] },
           { waste with cards := waste.cards
              ++ stock.cards.reverse.map (fun c => c.flip true) })
      ∧ gs1.settings = gs.settings := by
  intro n
  induction n with
  | zero =>
    intro gs stock waste hn _
    have hcs : stock.cards = [] := List.length_eq_zero.mp (Nat.le_zero.mp hn)
    refine ⟨gs, ?_, rfl⟩
    obtain ⟨t, i, cs⟩ := stock
    obtain ⟨tw, iw, cw⟩ := waste
    simp only at hcs
    subst hcs
    simp [drawUntilEmpty]
  | succ n ih =>
    intro gs stock waste hn hdc
    rw [drawUntilEmpty]
    by_cases hemp : stock.cards.isEmpty = true
    · have hcs : stock.cards = [] := List.isEmpty_iff.mp hemp
      refine ⟨gs, ?_, rfl⟩
      obtain ⟨t, i, cs⟩ := stock
      obtain ⟨tw, iw, cw⟩ := waste
      simp only at hcs
      subst hcs
      simp
    · have hempF : stock.cards.isEmpty = false := by
        cases h : stock.cards.isEmpty
        · rfl
        · exact absurd h hemp
      have hcs : stock.cards ≠ [] := by
        simpa [List.isEmpty_iff] using hemp
      rw [if_neg (by simp [hempF])]
      have hL : 1 ≤ stock.cards.length := List.length_pos.mpr hcs
      have hkL : min gs.settings.drawCount stock.cards.length
          ≤ stock.cards.length := Nat.min_le_right _ _
      simp only [GameLogic.drawFromStock, hempF, Bool.false_eq_true,
        if_false, drawLoop_spec _ _ _ hkL]
      set k0 := min gs.settings.drawCount stock.cards.length with hk0
      set m2 := stock.cards.length - k0 with hm2def
      set tailPart := (stock.cards.drop m2).reverse.map (fun c => c.flip true)
        with htp
      set headPart := stock.cards.take m2 with hhp
      have hlentake : headPart.length ≤ n := by
        rw [hhp]
        simp only [List.length_take]
        omega
      obtain ⟨gs1, hfin, hset⟩ := ih
        (gs.recordMove (.stock_to_waste (tailPart.map Card.toKey)
          tailPart.length))
        { stock with cards := headPart }
        { waste with cards := waste.cards ++ tailPart }
        hlentake (by rw [recordMove_settings]; exact hdc)
      rw [hfin]
      refine ⟨gs1, ?_, hset.trans (recordMove_settings _ _)⟩
      simp [List.append_assoc, htp, hhp, List.map_reverse]
      rw [← List.reverse_append, List.take_append_drop]

/-- Closed form of the recycle fold: the waste side is the iterated
first-occurrence removal, the stock side just appends all the recycled
cards face-down. -/
theorem recycle_foldl (cards w s : List Card) :
    cards.foldl (fun acc c =>
        (CardStack.removeFirstCard acc.1 c, acc.2 ++ [c.flip false])) (w, s)
      = (cards.foldl (fun w2 c => CardStack.removeFirstCard w2 c) w,
         s ++ cards.map (fun c => c.flip false)) := by
  induction cards generalizing w s with
  | nil => simp
  | cons c cs ih => simp [List.foldl_cons, ih]

/-- Removing an occurring card is removing the head of a permutation. -/
theorem removeFirstCard_perm {c : Card} {w : List Card} (h : c ∈ w) :
    w.Perm (c :: CardStack.removeFirstCard w c) := by
  induction w with
  | nil => cases h
  | cons x xs ih =>
    by_cases hx : x = c
    · subst hx
      rw [CardStack.removeFirstCard, if_pos rfl]
    · rw [CardStack.removeFirstCard, if_neg hx]
      have hmem : c ∈ xs := by
        rcases List.mem_cons.mp h with h1 | h1
        · exact absurd h1.symm hx
        · exact h1
      exact ((ih hmem).cons x).trans (List.Perm.swap c x _)

/-- Removing, one by one, the members of any permutation of a list from
that list empties it. -/
theorem removeAll_of_perm : ∀ (l w : List Card), l.Perm w →
    l.foldl (fun w2 c => CardStack.removeFirstCard w2 c) w = [] := by
  intro l
  induction l with
  | nil =>
    intro w h
    simpa using h.symm.eq_nil
  | cons c cs ih =>
    intro w h
    have hc : c ∈ w := h.subset (List.mem_cons_self c cs)
    have htail : cs.Perm (CardStack.removeFirstCard w c) :=
      (List.perm_cons c).mp (h.trans (removeFirstCard_perm hc))
    simpa [List.foldl_cons] using ih _ htail

/-- Experiment of the recycle-symmetry claim: drain the whole stock by
repeated draws, then make one more draw call (which recycles). -/
def drainAndRecycle (gs : GameState) (stock waste : CardStack) :
    GameState × CardStack × CardStack × List Card :=
  let d := drawUntilEmpty stock.cards.length gs stock waste
  GameLogic.drawFromStock d.1 d.2.1 d.2.2

/-- C5 (recycle symmetry): starting from an empty waste and any stock
contents in any face states, drawing until the stock is empty and then
calling draw once more (the recycle) restores the stock to exactly its
original order with every card face-down, and leaves the waste empty;
the recycle call returns those face-down cards. -/
theorem recycle_round_trip (gs : GameState) (stock waste : CardStack)
    (hdc : 1 ≤ gs.settings.drawCount) (hw : waste.cards = []) :
    (drainAndRecycle gs stock waste).2.1
        = { stock with cards := stock.cards.map (fun c => c.flip false) }
    ∧ (drainAndRecycle gs stock waste).2.2.1 = { waste with cards := [] }
    ∧ (drainAndRecycle gs stock waste).2.2.2
        = stock.cards.map (fun c => c.flip false) := by
  obtain ⟨gs1, hd, -⟩ :=
    drawUntilEmpty_spec stock.cards.length gs stock waste le_rfl hdc
  unfold drainAndRecycle
  rw [hd, hw]
  by_cases hsc : stock.cards = []
  · simp [GameLogic.drawFromStock, GameLogic.recycleWasteToStock, hsc]
  · have hWrev : (List.map (fun c : Card => c.flip true)
        stock.cards.reverse).reverse
        = stock.cards.map (fun c => c.flip true) := by
      rw [List.map_reverse, List.reverse_reverse]
    have hWempF : (List.map (fun c : Card => c.flip true)
        stock.cards.reverse).isEmpty = false := by
      simp [hsc]
    have hcomp : ∀ l : List Card,
        (l.map (fun c => c.flip true)).map (fun c => c.flip false)
          = l.map (fun c => c.flip false) := by
      intro l
      rw [List.map_map]
      rfl
    have hremove : (List.map (fun c : Card => c.flip true) stock.cards).foldl
        (fun w2 c => CardStack.removeFirstCard w2 c)
        (List.map (fun c : Card => c.flip true) stock.cards.reverse) = [] := by
      apply removeAll_of_perm
      rw [List.map_reverse]
      exact (List.reverse_perm _).symm
    simp only [GameLogic.drawFromStock, GameLogic.recycleWasteToStock,
      List.nil_append, List.isEmpty_nil, if_true, hWempF, Bool.false_eq_true,
      if_false, recycle_foldl, hWrev, hremove, hcomp]
    exact ⟨trivial, trivial, trivial⟩

/-- Concrete two-card stock used as a witness. -/
def stockTwoCards : CardStack :=
  ⟨StackType.stock, 0, [⟨Suit.hearts, Rank.r7, false⟩, ⟨Suit.spades, Rank.r9, true⟩]⟩

/-- Concrete empty waste used as a witness. -/
def wasteEmptyStack : CardStack := ⟨StackType.waste, 0, []⟩

/-- C5 witness: the round trip on a concrete two-card stock. -/
theorem recycle_round_trip_witness :
    (drainAndRecycle freshGameState stockTwoCards wasteEmptyStack).2.1
        = { stockTwoCards with
            cards := stockTwoCards.cards.map (fun c => c.flip false) }
    ∧ (drainAndRecycle freshGameState stockTwoCards wasteEmptyStack).2.2.1
        = { wasteEmptyStack with cards := [] }
    ∧ (drainAndRecycle freshGameState stockTwoCards wasteEmptyStack).2.2.2
        = stockTwoCards.cards.map (fun c => c.flip false) :=
  recycle_round_trip freshGameState stockTwoCards wasteEmptyStack
    (by decide) rfl

/-- C6 (draw-count respect): with `drawCount = 3` and exactly five stock
cards, the three successive draw calls move 3, then 2, then 0 cards from
the stock to the waste — each drawn card flipped face-up and pushed in
removal order, so the last-drawn card is the waste top — and the recycle
fires only on the third call (the one after the stock became empty), not
on the second call that emptied it. -/
theorem draw_count_respect (gs1 gs2 gs3 gs4 : GameState)
    (s1 s2 s3 w1 w2 w3 : CardStack) (d1 d2 d3 : List Card)
    (c1 c2 c3 c4 c5 : Card)
    (hdc : gs1.settings.drawCount = 3)
    (h1 : GameLogic.drawFromStock gs1 ⟨StackType.stock, 0, [c1, c2, c3, c4, c5]⟩
        ⟨StackType.waste, 0, []⟩ = (gs2, s1, w1, d1))
    (h2 : GameLogic.drawFromStock gs2 s1 w1 = (gs3, s2, w2, d2))
    (h3 : GameLogic.drawFromStock gs3 s2 w2 = (gs4, s3, w3, d3)) :
    d1 = [c5.flip true, c4.flip true, c3.flip true]
    ∧ s1.cards = [c1, c2]
    ∧ w1.cards = d1
    ∧ d2 = [c2.flip true, c1.flip true]
    ∧ s2.cards = []
    ∧ w2.cards.length = 5
    ∧ s3.cards.length = 5
    ∧ w3.cards = []
    ∧ d3.length = 5 := by
  have e1 : GameLogic.drawFromStock gs1
      ⟨StackType.stock, 0, [c1, c2, c3, c4, c5]⟩ ⟨StackType.waste, 0, []⟩
      = (gs1.recordMove (.stock_to_waste
          ([c5.flip true, c4.flip true, c3.flip true].map Card.toKey) 3),
         ⟨StackType.stock, 0, [c1, c2]⟩,
         ⟨StackType.waste, 0, [c5.flip true, c4.flip true, c3.flip true]⟩,
         [c5.flip true, c4.flip true, c3.flip true]) := by
    simp only [GameLogic.drawFromStock, hdc]
    rw [drawLoop_spec _ _ _ (Nat.min_le_right _ _)]
    simp
  have h1s := h1.symm.trans e1
  simp only [Prod.mk.injEq] at h1s
  obtain ⟨hgs2, hs1, hw1, hd1⟩ := h1s
  have hdc2 : gs2.settings.drawCount = 3 := by
    rw [hgs2, recordMove_settings]
    exact hdc
  have e2 : GameLogic.drawFromStock gs2 ⟨StackType.stock, 0, [c1, c2]⟩
      ⟨StackType.waste, 0, [c5.flip true, c4.flip true, c3.flip true]⟩
      = (gs2.recordMove (.stock_to_waste
          ([c2.flip true, c1.flip true].map Card.toKey) 2),
         ⟨StackType.stock, 0, []⟩,
         ⟨StackType.waste, 0, [c5.flip true, c4.flip true, c3.flip true,
           c2.flip true, c1.flip true]⟩,
         [c2.flip true, c1.flip true]) := by
    simp only [GameLogic.drawFromStock, hdc2]
    rw [drawLoop_spec _ _ _ (Nat.min_le_right _ _)]
    simp
  rw [hs1, hw1] at h2
  have h2s := h2.symm.trans e2
  simp only [Prod.mk.injEq] at h2s
  obtain ⟨hgs3, hs2, hw2, hd2⟩ := h2s
  have e3 : ∀ (g : GameState) (wc : List Card), wc ≠ [] →
      GameLogic.drawFromStock g ⟨StackType.stock, 0, []⟩
        ⟨StackType.waste, 0, wc⟩
        = (g.recordMove (.waste_to_stock wc.length),
           ⟨StackType.stock, 0, wc.reverse.map (fun c => c.flip false)⟩,
           ⟨StackType.waste, 0, []⟩,
           wc.reverse.map (fun c => c.flip false)) := by
    intro g wc hne
    have hempF : wc.isEmpty = false := by
      cases wc with
      | nil => exact absurd rfl hne
      | cons a as => rfl
    simp only [GameLogic.drawFromStock, GameLogic.recycleWasteToStock,
      List.isEmpty_nil, if_true, hempF, Bool.false_eq_true, if_false,
      recycle_foldl, removeAll_of_perm _ _ (List.reverse_perm _)]
    simp
  rw [hs2, hw2] at h3
  rw [e3 gs3 _ (by simp)] at h3
  have h3s := h3.symm
  simp only [Prod.mk.injEq] at h3s
  obtain ⟨hgs4, hs3, hw3, hd3⟩ := h3s
  refine ⟨hd1, by rw [hs1], by rw [hw1, hd1], hd2, by rw [hs2], ?_, ?_, ?_, ?_⟩
  · rw [hw2]
    simp
  · rw [hs3]
    simp
  · rw [hw3]
  · rw [hd3]
    simp

/-- First of three successive concrete draw calls for the C6 witness. -/
def c6r1 : GameState × CardStack × CardStack × List Card :=
  GameLogic.drawFromStock freshGameState
    ⟨StackType.stock, 0,
      [⟨Suit.hearts, Rank.r2, false⟩, ⟨Suit.clubs, Rank.r4, false⟩,
       ⟨Suit.diamonds, Rank.r6, false⟩, ⟨Suit.spades, Rank.r8, false⟩,
       ⟨Suit.hearts, Rank.r10, false⟩]⟩
    ⟨StackType.waste, 0, []⟩

/-- Second concrete draw call for the C6 witness. -/
def c6r2 : GameState × CardStack × CardStack × List Card :=
  GameLogic.drawFromStock c6r1.1 c6r1.2.1 c6r1.2.2.1

/-- Third concrete draw call for the C6 witness. -/
def c6r3 : GameState × CardStack × CardStack × List Card :=
  GameLogic.drawFromStock c6r2.1 c6r2.2.1 c6r2.2.2.1

/-- C6 witness: on a concrete five-card stock, the second call empties
the stock without recycling and the third call recycles all five. -/
theorem draw_count_respect_witness :
    c6r1.2.2.2.length = 3 ∧ c6r2.2.1.cards = [] ∧ c6r3.2.2.1.cards = []
      ∧ c6r3.2.1.cards.length = 5 := by
  obtain ⟨ha, -, -, -, hb, -, hc, hd, -⟩ := draw_count_respect
    freshGameState c6r1.1 c6r2.1 c6r3.1 c6r1.2.1 c6r2.2.1 c6r3.2.1
    c6r1.2.2.1 c6r2.2.2.1 c6r3.2.2.1 c6r1.2.2.2 c6r2.2.2.2 c6r3.2.2.2
    ⟨Suit.hearts, Rank.r2, false⟩ ⟨Suit.clubs, Rank.r4, false⟩
    ⟨Suit.diamonds, Rank.r6, false⟩ ⟨Suit.spades, Rank.r8, false⟩
    ⟨Suit.hearts, Rank.r10, false⟩ rfl rfl rfl rfl
  exact ⟨by rw [ha]; rfl, hb, hd, hc⟩

/-- Conditions that hold for every candidate pair produced by
`findAutoCompletableCards`: the source stack (at position `i`) is a
non-foundation stack whose face-up top card is the candidate, and the
destination (at position `j`) is a foundation accepting it. -/
theorem mem_findAutoCompletableCards {allStacks : List CardStack}
    {c : Card} {i j : Nat}
    (h : (c, i, j) ∈ GameLogic.findAutoCompletableCards allStacks) :
    ∃ s f, allStacks[i]? = some s ∧ allStacks[j]? = some f
      ∧ s.type ≠ StackType.foundation ∧ s.getTopCard = some c
      ∧ c.faceUp = true ∧ f.type = StackType.foundation
      ∧ GameLogic.canMoveToFoundation c f = true := by
  unfold GameLogic.findAutoCompletableCards at h
  rw [List.mem_flatMap] at h
  obtain ⟨p, hp, hmem⟩ := h
  obtain ⟨i0, s⟩ := p
  split at hmem
  · cases hmem
  · rename_i hft
    split at hmem
    · cases hmem
    · rename_i c0 htc
      split at hmem
      · rename_i hfu
        rw [List.mem_filterMap] at hmem
        obtain ⟨q, hq, hqeq⟩ := hmem
        obtain ⟨j0, f⟩ := q
        rw [List.mem_filter] at hq
        obtain ⟨hqenum, hqty⟩ := hq
        split at hqeq
        · rename_i hcm
          have htup : (c0, i0, j0) = (c, i, j) := Option.some.inj hqeq
          simp only [Prod.mk.injEq] at htup
          obtain ⟨hc, hi, hj⟩ := htup
          subst hc hi hj
          refine ⟨s, f, ?_, ?_, hft, htc, hfu, ?_, hcm⟩
          · exact List.mem_enum_iff_getElem?.mp hp
          · exact List.mem_enum_iff_getElem?.mp hqenum
          · simpa using hqty
        · cases hqeq
      · cases hmem

/-- Measurement step for counting the single-card moves an auto-complete
sweep actually performs (the engine itself discards the per-move
results). -/
def acStep (acc : GameState × List CardStack × Nat) (t : Card × Nat × Nat) :
    GameState × List CardStack × Nat :=
  let r := GameLogic.executeSingleCardMove acc.1 acc.2.1 t.1 t.2.1 t.2.2
  (r.2.1, r.2.2, acc.2.2 + (if r.1 then 1 else 0))

/-- Number of moves an auto-complete sweep actually performs, folding
`acStep` over the same pairs in the same order as
`executeAutoComplete`. -/
def autoCompleteMadeCount (gs : GameState) (allStacks : List CardStack) : Nat :=
  ((GameLogic.findAutoCompletableCards allStacks).foldl acStep
    (gs, allStacks, 0)).2.2

/-- Counting moves never decreases along the sweep. -/
theorem acStep_foldl_mono : ∀ (pairs : List (Card × Nat × Nat))
    (g : GameState) (ss : List CardStack) (n : Nat),
    n ≤ (pairs.foldl acStep (g, ss, n)).2.2 := by
  intro pairs
  induction pairs with
  | nil =>
    intro g ss n
    simp
  | cons t ts ih =>
    intro g ss n
    rw [List.foldl_cons]
    calc n ≤ n + (if (GameLogic.executeSingleCardMove g ss t.1 t.2.1 t.2.2).1
          then 1 else 0) := Nat.le_add_right _ _
      _ ≤ _ := ih _ _ _

/-- Stacks of the fixpoint demonstration: an empty foundation and one
tableau holding the two of hearts under the ace of hearts, both
face-up. -/
def acFixStacks : List CardStack :=
  [⟨StackType.foundation, 0, []⟩,
   ⟨StackType.tableau, 0,
     [⟨Suit.hearts, Rank.r2, true⟩, ⟨Suit.hearts, Rank.rA, true⟩]⟩]

/-- C7 as amended: an auto-complete invocation returns `true` exactly
when it found at least one (card, foundation) pair; while the game is in
the playing state this coincides with at least one move actually being
made; and the sweep does not run to a fixpoint — on a concrete playing
state one invocation returns `true` while leaving further completable
pairs behind. -/
theorem executeAutoComplete_single_sweep (gs : GameState)
    (allStacks : List CardStack) :
    ((GameLogic.executeAutoComplete gs allStacks).1 = true
      ↔ GameLogic.findAutoCompletableCards allStacks ≠ [])
    ∧ (gs.isPlaying = true →
       ((GameLogic.executeAutoComplete gs allStacks).1 = true
         ↔ 1 ≤ autoCompleteMadeCount gs allStacks))
    ∧ ((GameLogic.executeAutoComplete freshGameState acFixStacks).1 = true
       ∧ GameLogic.findAutoCompletableCards
          (GameLogic.executeAutoComplete freshGameState acFixStacks).2.2
          ≠ []) := by
  refine ⟨?_, ?_, by decide⟩
  · unfold GameLogic.executeAutoComplete
    cases hp : GameLogic.findAutoCompletableCards allStacks with
    | nil => simp
    | cons t ts => simp
  · intro hplay
    constructor
    · intro htrue
      unfold autoCompleteMadeCount
      cases hp : GameLogic.findAutoCompletableCards allStacks with
      | nil =>
        exfalso
        unfold GameLogic.executeAutoComplete at htrue
        rw [hp] at htrue
        simp at htrue
      | cons t ts =>
        obtain ⟨c, i, j⟩ := t
        have hmem : (c, i, j) ∈ GameLogic.findAutoCompletableCards allStacks := by
          rw [hp]
          exact List.mem_cons_self _ _
        obtain ⟨s, f, hsi, hfj, hsty, htop, hfu, hfty, hcm⟩ :=
          mem_findAutoCompletableCards hmem
        have hgetj : allStacks.getD j dummyStack = f := by
          rw [List.getD_eq_getElem?_getD, hfj]
          rfl
        have hval : GameLogic.validateMove gs c (allStacks.getD i dummyStack)
            (allStacks.getD j dummyStack) = true := by
          unfold GameLogic.validateMove
          rw [hgetj]
          simp [hplay, hfu, hfty, hcm]
        have hfirst : (GameLogic.executeSingleCardMove gs allStacks c i j).1
            = true := by
          simp only [List.getD_eq_getElem?_getD] at hval
          simp only [GameLogic.executeSingleCardMove,
            List.getD_eq_getElem?_getD, hval, Bool.not_true,
            Bool.false_eq_true, if_false]
          split <;> first
          | rfl
          | (split <;> rfl)
        rw [List.foldl_cons]
        have hone : acStep (gs, allStacks, 0) (c, i, j)
            = ((GameLogic.executeSingleCardMove gs allStacks c i j).2.1,
               (GameLogic.executeSingleCardMove gs allStacks c i j).2.2, 1) := by
          simp only [acStep]
          simp [hfirst]
        rw [hone]
        exact acStep_foldl_mono ts _ _ 1
    · intro hcount
      have hne : GameLogic.findAutoCompletableCards allStacks ≠ [] := by
        intro hnil
        unfold autoCompleteMadeCount at hcount
        rw [hnil] at hcount
        simp at hcount
      unfold GameLogic.executeAutoComplete
      cases hp : GameLogic.findAutoCompletableCards allStacks with
      | nil => exact absurd hp hne
      | cons t ts => simp

/-- Game state that is not playing (never started), used to refute the
claim's "returns true iff a move was made". -/
def acCexGs : GameState := { freshGameState with isGameStarted := false }

/-- Stacks with a completable ace while the game is not playing. -/
def acCexStacks : List CardStack :=
  [⟨StackType.foundation, 0, []⟩,
   ⟨StackType.tableau, 0, [⟨Suit.hearts, Rank.rA, true⟩]⟩]

/-- C7 counterexample: with the game not in the playing state but a
completable pair on the table, `executeAutoComplete` returns `true`
although zero moves are actually made and nothing changes. -/
theorem executeAutoComplete_true_without_move :
    (GameLogic.executeAutoComplete acCexGs acCexStacks).1 = true
    ∧ autoCompleteMadeCount acCexGs acCexStacks = 0
    ∧ (GameLogic.executeAutoComplete acCexGs acCexStacks).2.2 = acCexStacks
    ∧ (GameLogic.executeAutoComplete acCexGs acCexStacks).2.1 = acCexGs := by
  decide

/-- C7 witness: a playing state in which the amended equivalence is
instantiated — the sweep on `acFixStacks` reports `true` and indeed
makes at least one move. -/
theorem executeAutoComplete_single_sweep_witness :
    1 ≤ autoCompleteMadeCount freshGameState acFixStacks :=
  ((executeAutoComplete_single_sweep freshGameState acFixStacks).2.1
    (by decide)).mp (by decide)

/-- C1 (card conservation, refuted on the code): from a freshly dealt
game whose tableau column 0 holds a face-up ace — a legitimate shuffle
outcome — a single engine auto-complete sweep pushes that ace onto all
four empty foundations, because `findAutoCompletableCards` emits one
pair per foundation and `removeCard` silently no-ops once the ace has
left its stack.  The 52-card deal ends with 55 cards across the stacks
and the ace of hearts present four times. -/
theorem card_conservation_violated_by_auto_complete :
    countAllCards (freshDeal buggyDeck) = 52
    ∧ countCard (freshDeal buggyDeck) Rank.rA Suit.hearts = 1
    ∧ (GameLogic.executeAutoComplete freshGameState (freshDeal buggyDeck)).1
        = true
    ∧ countAllCards
        (GameLogic.executeAutoComplete freshGameState
          (freshDeal buggyDeck)).2.2 = 55
    ∧ countCard
        (GameLogic.executeAutoComplete freshGameState
          (freshDeal buggyDeck)).2.2 Rank.rA Suit.hearts = 4 := by
  decide

end Solitaire
